import Mathlib

/-!
Verification development for the ACI vetR collector's collection pipeline.

The definitions below are a shallow embedding of the Go sources:
the JSON value model and the gjson-style path extraction used by `fetch`,
the buntdb-backed snapshot store (modelled as a key-value map with
upsert writes), the request catalog `reqs`, the `fetch` function of
`main.go` (and the variant of `part_004` that checks for empty DNs),
the orchestration in `main` (concurrent tasks joined before the metadata
write, modelled as a small labelled transition system), and the
file-cleanup behaviour of the deferred handlers in `main.go` and
`part_003`.
-/

namespace AciVetr

/-- JSON values as decoded from an API response body.  Objects keep their
fields as an ordered association list, mirroring the raw document. -/
inductive Json where
  | null : Json
  | str : String → Json
  | num : Int → Json
  | obj : List (String × Json) → Json
  | arr : List Json → Json

/-- Field lookup on an object, as an existence test: `none` when the value
is not an object or the key is absent.  This models a gjson path step that
"does not exist" (such elements are skipped by `#.field` queries). -/
def lookupField (key : String) : Json → Option Json
  | .obj fields =>
    match fields.find? (fun f => f.1 == key) with
    | some f => some f.2
    | none => none
  | _ => none

/-- The value of the first field of an object, models the gjson `*`
wildcard path step (which returns the first matching key). -/
def firstField : Json → Option Json
  | .obj (f :: _) => some f.2
  | _ => none

/-- One gjson path component applied to a value: the `*` wildcard matches
the first field, any other component is a literal key lookup. -/
def stepField (tag : String) (x : Json) : Option Json :=
  if tag == "*" then firstField x else lookupField tag x

/-- Evaluation of a gjson query of the shape `#.<tag>.attributes` over an
array: for each element take the `tag` field and then its `attributes`
field, skipping elements where the path does not resolve.  On anything
that is not an array the result is empty. -/
def sharpExtract (tag : String) : Json → List Json
  | .arr xs => xs.filterMap (fun x => (stepField tag x).bind (lookupField "attributes"))
  | _ => []

/-- Splitting of a character list at `.` separators, accumulating the
current component in reverse; models `strings.Split`-style behaviour of
the gjson path parser. -/
def splitPathAux : List Char → List Char → List String
  | [], acc => [String.mk acc.reverse]
  | c :: rest, acc =>
    if c == '.' then String.mk acc.reverse :: splitPathAux rest []
    else splitPathAux rest (c :: acc)

/-- Decomposition of a gjson path into its dot-separated components. -/
def splitPath (path : String) : List String :=
  splitPathAux path.data []

/-- Evaluation of `res.Get(path).Array()` for the path shapes the collector
uses: every filter in the program is of the form `#.<tag>.attributes`
(either written literally in the catalog or derived from the class name).
Other paths yield no records. -/
def gjsonGetArray (path : String) (doc : Json) : List Json :=
  match splitPath path with
  | ["#", tag, "attributes"] => sharpExtract tag doc
  | _ => []

/-- Evaluation of `record.Get(key).Str`: the string value of a field, or
the empty string when the field is missing or not a string (gjson's `Str`
accessor returns `""` in those cases). -/
def Json.getStr (j : Json) (key : String) : String :=
  match lookupField key j with
  | some (.str s) => s
  | _ => ""

example : gjsonGetArray "#.fvTenant.attributes"
    (.arr [.obj [("fvTenant", .obj [("attributes", .obj [("dn", .str "uni/tn-A")])])]])
    = [.obj [("dn", .str "uni/tn-A")]] := rfl

example : Json.getStr (.obj [("dn", .str "uni/tn-A")]) "dn" = "uni/tn-A" := rfl

/-- Snapshot store abstraction over buntdb: the abstract state is the map
from keys to the raw record stored under them. -/
abbrev Store := String → Option Json

/-- An empty store, as opened at run start on a fresh file. -/
def Store.empty : Store := fun _ => none

/-- Evaluation of `tx.Set(key, value)`: an upsert, the new value replaces
whatever the key previously held. -/
def Store.set (s : Store) (key : String) (value : Json) : Store :=
  fun q => if q = key then some value else s q

/-- Sequential application of the writes of one transaction (the
`for _, record := range ...` loop body calls `tx.Set` once per record). -/
def Store.applyWrites (s : Store) : List (String × Json) → Store
  | [] => s
  | kv :: rest => (s.set kv.1 kv.2).applyWrites rest

/-- Request descriptor from `main.go`: `class` (a Lean keyword, rendered
`className`), query modifiers, a gjson filter string defaulting to empty,
and the `optional` tolerance flag. -/
structure Request where
  className : String
  query : List String := []
  filter : String := ""
  optional : Bool := false
deriving DecidableEq

/-- Effective gjson filter used inside `fetch`: when the descriptor's
filter is unset it is derived from the resource class, exactly the
`req.filter = fmt.Sprintf("#.%s.attributes", req.class)` line. -/
def Request.effFilter (req : Request) : String :=
  if req.filter == "" then "#." ++ req.className ++ ".attributes" else req.filter

/-- Log entries the pipeline emits, one constructor per call site:
`debugRequest` is the `log.Debug` "requesting resource" entry of
`main.go`, `panicFetch` its `out.Panic` "failed to make request";
`infoFetching`, `errorFetch` and `panicDnEmpty` are the `log.Info`,
`log.Error` and `log.Panic("DN empty")` entries of the `part_004`
variant (`panicDnEmpty` carries the offending record). -/
inductive LogEvent where
  | debugRequest (className : String)
  | panicFetch (className : String)
  | infoFetching (className : String)
  | errorFetch (className : String)
  | panicDnEmpty (record : Json)

/-- An entry that records a failed request (either the fatal panic of
`main.go` or the tolerated error entry of `part_004`). -/
def LogEvent.isFailure : LogEvent → Bool
  | .panicFetch _ => true
  | .errorFetch _ => true
  | _ => false

/-- Key under which a record is persisted: prefix, colon, distinguished
name — the `fmt.Sprintf("%s:%s", req.class, record.Get("dn").Str)` line. -/
def recordKey (pfx : String) (record : Json) : String :=
  pfx ++ ":" ++ record.getStr "dn"

/-- Outcome of one `fetch` call of `main.go`: whether it panicked on a
failed required request, the ordered `tx.Set` writes of its transaction,
and the log entries it emitted. -/
structure FetchOutcome where
  aborted : Bool
  writes : List (String × Json)
  logs : List LogEvent

/-- The `fetch` function of `main.go` (first, schema-20 section), applied
to the API response: `none` models `client.Get` returning an error, in
which case `res` is the zero value and extraction yields no records;
a failed request on a non-optional descriptor records the error and
panics before the store transaction. -/
def fetch (req : Request) (resp : Option Json) : FetchOutcome :=
  let logs := [LogEvent.debugRequest req.className]
  match resp with
  | none =>
    if req.optional then
      { aborted := false
        writes := (gjsonGetArray req.effFilter Json.null).map
          (fun r => (recordKey req.className r, r))
        logs := logs }
    else
      { aborted := true
        writes := []
        logs := logs ++ [LogEvent.panicFetch req.className] }
  | some res =>
      { aborted := false
        writes := (gjsonGetArray req.effFilter res).map
          (fun r => (recordKey req.className r, r))
        logs := logs }

/-- Sequential model of the fetch phase of `main`: each task runs `fetch`
and commits its writes; a panic in a required fetch aborts the run (the
boolean result is `false`) before the metadata step. -/
def runFetches : List Request → (Request → Option Json) → Store → Store × Bool
  | [], _, s => (s, true)
  | req :: rest, api, s =>
    let o := fetch req (api req)
    if o.aborted then (s, false)
    else runFetches rest api (s.applyWrites o.writes)

/-- Schema version constant of `main.go`. -/
def schemaVersion : Int := 20

/-- Metadata record marshalled at the end of `main`:
`{collectorVersion, schemaVersion, timestamp}`. -/
def metaValue (ver : String) (ts : String) : Json :=
  .obj [("collectorVersion", .str ver), ("schemaVersion", .num schemaVersion),
        ("timestamp", .str ts)]

/-- The collection run of `main`: all fetch tasks, joined, then — only
when no required fetch failed — the single metadata write at key `meta`.
The returned boolean is `true` when the run completed. -/
def runMain (catalog : List Request) (api : Request → Option Json)
    (ver ts : String) : Store × Bool :=
  let r := runFetches catalog api Store.empty
  if r.2 then (r.1.set "meta" (metaValue ver ts), true) else r

/-- The resource catalog `reqs` of `main.go` (first section), in source
order: plain class fetches, the optional switch-capacity classes, and the
count-style descriptors with their literal `#.moCount.attributes` filter. -/
def reqs : List Request := [
  { className := "topSystem" },
  { className := "eqptBoard" },
  { className := "fabricNode" },
  { className := "fabricSetupP" },
  { className := "epLoopProtectP" },
  { className := "epControlP" },
  { className := "epIpAgingP" },
  { className := "infraSetPol" },
  { className := "infraPortTrackPol" },
  { className := "fvAEPg" },
  { className := "fvRsBd" },
  { className := "fvBD" },
  { className := "fvCtx" },
  { className := "fvTenant" },
  { className := "fvSubnet" },
  { className := "vzBrCP" },
  { className := "vzSubj" },
  { className := "vzRsSubjFiltAtt" },
  { className := "fvRsProv" },
  { className := "fvRsCons" },
  { className := "l3extOut" },
  { className := "l3extLNodeP" },
  { className := "l3extRsNodeL3OutAtt" },
  { className := "l3extLIfP" },
  { className := "l3extInstP" },
  { className := "isisDomPol" },
  { className := "bgpRRNodePEp" },
  { className := "fabricNodeControl" },
  { className := "fabricRsNodeCtrl" },
  { className := "fabricRsLeNodePGrp" },
  { className := "fabricNodeBlk" },
  { className := "mcpIfPol" },
  { className := "mcpInstPol" },
  { className := "infraAttEntityP" },
  { className := "infraRsDomP" },
  { className := "infraRsVlanNs" },
  { className := "fvnsEncapBlk" },
  { className := "firmwareRunning" },
  { className := "firmwareCtrlrRunning" },
  { className := "pkiExportEncryptionKey" },
  { className := "faultInst" },
  { className := "fvcapRule" },
  { className := "fvCEp", query := ["rsp-subtree-include=count"],
    filter := "#.moCount.attributes" },
  { className := "fvIp", query := ["rsp-subtree-include=count"],
    filter := "#.moCount.attributes" },
  { className := "vnsCDev", query := ["rsp-subtree-include=count"],
    filter := "#.moCount.attributes" },
  { className := "vnsGraphInst", query := ["rsp-subtree-include=count"],
    filter := "#.moCount.attributes" },
  { className := "ctxClassCnt", query := ["rsp-subtree-class=l2BD,fvEpP,l3Dom"] },
  { className := "eqptcapacityVlanUsage5min" },
  { className := "eqptcapacityPolUsage5min" },
  { className := "eqptcapacityL2Usage5min" },
  { className := "eqptcapacityL2RemoteUsage5min", optional := true },
  { className := "eqptcapacityL2TotalUsage5min", optional := true },
  { className := "eqptcapacityL3Usage5min" },
  { className := "eqptcapacityL3UsageCap5min" },
  { className := "eqptcapacityL3RemoteUsage5min", optional := true },
  { className := "eqptcapacityL3RemoteUsageCap5min", optional := true },
  { className := "eqptcapacityL3TotalUsage5min", optional := true },
  { className := "eqptcapacityL3TotalUsageCap5min", optional := true },
  { className := "eqptcapacityMcastUsage5min" }]

/-- Request of `requests.go`: a prepared HTTP request path plus the
database prefix (field `prefix` in Go, rendered `pfx`). -/
structure NamedRequest where
  path : String
  pfx : String
deriving DecidableEq

/-- The `newRequest` helper of `requests.go`: builds the class query path
and uses the class name as the database prefix. -/
def newRequest (className : String) : NamedRequest :=
  { path := "api/class/" ++ className, pfx := className }

/-- Request of the `part_004` variant: an output prefix defaulting to the
class, the class, and query modifiers; it has no `optional` flag (that
variant tolerates every fetch error) and no per-request filter. -/
structure Request4 where
  pfx : String := ""
  className : String
  queries : List (String × String) := []

/-- Effective database prefix of the `part_004` variant: the
`if req.prefix == "" { req.prefix = req.class }` default. -/
def Request4.effPfx (req : Request4) : String :=
  if req.pfx == "" then req.className else req.pfx

/-- The record-writing loop of the `part_004` variant: records are
processed in order; a record whose `dn` is empty raises the `DN empty`
panic, stopping the loop (no write for that record or the ones after it);
otherwise the record is written at `prefix:dn`.  Result: the performed
writes and whether the loop panicked. -/
def writeRecords4 (pfx : String) : List Json → List (String × Json) × Bool
  | [] => ([], false)
  | r :: rest =>
    if r.getStr "dn" == "" then ([], true)
    else
      let p := writeRecords4 pfx rest
      ((pfx ++ ":" ++ r.getStr "dn", r) :: p.1, p.2)

/-- First record with an empty distinguished name, the one the `DN empty`
panic of `part_004` reports. -/
def badDnRecord (records : List Json) : Json :=
  (records.find? (fun r => r.getStr "dn" == "")).getD Json.null

/-- Outcome of the `part_004` fetch: whether the DN-empty panic fired,
the writes performed, and the log entries emitted. -/
structure Fetch4Outcome where
  dnPanicked : Bool
  writes : List (String × Json)
  logs : List LogEvent

/-- The `fetch` function of the `part_004` variant: a failed request only
logs an error (`log.Error`) and the task continues with the zero-value
response; extraction uses the fixed `#.*.attributes` wildcard path; each
record's `dn` is checked, an empty one is fatal (`log.Panic` carrying the
record), distinguishable from the fetch-error entry. -/
def fetch4 (req : Request4) (resp : Option Json) : Fetch4Outcome :=
  let logs0 := [LogEvent.infoFetching req.className, LogEvent.debugRequest req.className]
  let logs1 := match resp with
    | none => logs0 ++ [LogEvent.errorFetch req.className]
    | some _ => logs0
  let res := match resp with
    | none => Json.null
    | some r => r
  let records := gjsonGetArray "#.*.attributes" res
  let p := writeRecords4 req.effPfx records
  { dnPanicked := p.2
    writes := p.1
    logs := logs1 ++ (if p.2 then [LogEvent.panicDnEmpty (badDnRecord records)] else []) }

/-- File name constants of `main.go`. -/
def dbName : String := "data.db"

/-- Log file name constant of `main.go`. -/
def logFile : String := "aci-vetr-c.log"

/-- Default archive name constant of `main.go`. -/
def resultZip : String := "aci-vetr-data.zip"

/-- Filesystem actions the end of a run can perform. -/
inductive FileAction where
  | removeFile (name : String)
  | archiveFiles (srcs : List String) (dst : String)
deriving DecidableEq

/-- File actions of `main` in `main.go` (first section), by outcome.
On a fatal failure (a recovered panic) the deferred handler only prints;
no file is removed.  On success the old archive is removed, the store and
log are archived, then both temporary files are removed. -/
def mainFileActions (fatalFailure : Bool) : List FileAction :=
  if fatalFailure then []
  else [.removeFile resultZip, .archiveFiles [dbName, logFile] resultZip,
        .removeFile dbName, .removeFile logFile]

/-- File actions of `main` in the `part_003` variant, by outcome, for a
fatal failure raised (and recovered) in the main routine — such as a
failed login, store open, metadata write or archive step.  Its deferred
handler removes the store file and the log file unconditionally, so they
are removed even when the run failed; on success the archive step runs
first. -/
def mainFileActionsV3 (fatalFailure : Bool) (output : String) : List FileAction :=
  (if fatalFailure then []
   else [.removeFile output, .archiveFiles [dbName, logFile] output])
  ++ [.removeFile dbName, .removeFile logFile]

/-- Observable events of the orchestration: completion of one descriptor's
fetch task, and the metadata write of the finalizer. -/
inductive Event where
  | taskDone (req : Request)
  | metaWrite
deriving DecidableEq

/-- Orchestrator state: the fetch tasks not yet completed (the wait-group
counter tracks their number) and whether the metadata record has been
written. -/
structure OrchState where
  pending : List Request
  metaDone : Bool
deriving DecidableEq

/-- Initial orchestrator state: every catalog entry spawned and pending,
metadata unwritten. -/
def OrchState.init (catalog : List Request) : OrchState :=
  { pending := catalog, metaDone := false }

/-- One step of the orchestration of `main`: either some in-flight fetch
task completes (`wg.Done`), in any order; or — only once the wait group
is empty (`wg.Wait` has returned) and the metadata has not been written
yet — the finalizer writes the metadata record. -/
inductive OrchStep : OrchState → Event → OrchState → Prop where
  | taskDone (s : OrchState) (r : Request) (h : r ∈ s.pending) :
      OrchStep s (.taskDone r) { pending := s.pending.erase r, metaDone := s.metaDone }
  | metaWrite (s : OrchState) (hp : s.pending = []) (hm : s.metaDone = false) :
      OrchStep s .metaWrite { pending := s.pending, metaDone := true }

/-- Finite executions of the orchestration, as the reflexive-transitive
closure of `OrchStep` recording the event sequence. -/
inductive OrchTrace : OrchState → List Event → OrchState → Prop where
  | nil (s : OrchState) : OrchTrace s [] s
  | cons {s s' s'' : OrchState} {e : Event} {es : List Event} :
      OrchStep s e s' → OrchTrace s' es s'' → OrchTrace s (e :: es) s''

/-- Requests whose task-completion events appear in a trace, in order. -/
def tasksDone : List Event → List Request
  | [] => []
  | .taskDone r :: es => r :: tasksDone es
  | .metaWrite :: es => tasksDone es

theorem colon_mem_append (pfx dn : String) : ':' ∈ (pfx ++ ":" ++ dn).data := by
  rw [String.data_append, String.data_append]
  refine List.mem_append_left _ (List.mem_append_right _ ?_)
  decide

theorem fetch_writes_key (req : Request) (resp : Option Json) :
    ∀ kv ∈ (fetch req resp).writes,
      kv.1 = req.className ++ ":" ++ kv.2.getStr "dn" := by
  intro kv hkv
  have h : ∀ rs : List Json,
      kv ∈ rs.map (fun r => (recordKey req.className r, r)) →
      kv.1 = req.className ++ ":" ++ kv.2.getStr "dn" := by
    intro rs hm
    obtain ⟨r, _, heq⟩ := List.mem_map.mp hm
    rw [← heq]
    rfl
  cases resp with
  | none =>
    by_cases hopt : req.optional = true
    · exact h _ (by simpa [fetch, hopt] using hkv)
    · simp [fetch, hopt] at hkv
  | some res => exact h _ (by simpa [fetch] using hkv)

theorem applyWrites_eq_of_not_mem (s : Store) (ws : List (String × Json))
    (k : String) (h : ∀ kv ∈ ws, kv.1 ≠ k) : s.applyWrites ws k = s k := by
  induction ws generalizing s with
  | nil => rfl
  | cons kv rest ih =>
    have h1 : kv.1 ≠ k := h kv (List.mem_cons_self _ _)
    have h2 : ∀ x ∈ rest, x.1 ≠ k := fun x hx => h x (List.mem_cons_of_mem _ hx)
    show ((s.set kv.1 kv.2).applyWrites rest) k = s k
    rw [ih _ h2]
    exact if_neg (fun hk => h1 hk.symm)

theorem runFetches_false_of_required_error (catalog : List Request)
    (api : Request → Option Json) (s : Store) (req : Request)
    (hmem : req ∈ catalog) (hopt : req.optional = false)
    (herr : api req = none) : (runFetches catalog api s).2 = false := by
  induction catalog generalizing s with
  | nil => cases hmem
  | cons r rest ih =>
    by_cases hab : (fetch r (api r)).aborted = true
    · simp [runFetches, hab]
    · rcases List.mem_cons.mp hmem with heq | hmem'
      · exfalso
        apply hab
        subst heq
        simp [fetch, herr, hopt]
      · simp [runFetches, hab]
        exact ih _ hmem'

theorem runFetches_fst_eq_of_no_colon (catalog : List Request)
    (api : Request → Option Json) (s : Store) (k : String)
    (hk : ':' ∉ k.data) : (runFetches catalog api s).1 k = s k := by
  induction catalog generalizing s with
  | nil => rfl
  | cons r rest ih =>
    by_cases hab : (fetch r (api r)).aborted = true
    · simp [runFetches, hab]
    · simp [runFetches, hab]
      rw [ih]
      apply applyWrites_eq_of_not_mem
      intro kv hkv hkk
      apply hk
      rw [← hkk, fetch_writes_key r (api r) kv hkv]
      exact colon_mem_append _ _

/-- C1: for every descriptor with `optional = false`, a fetch error makes
the run abort — `fetch` records the failure (`out.Panic`) and panics
before any store write, `main` never reaches the metadata step — so the
`meta` key is never written to the store in that run. -/
theorem c1_required_fetch_error_aborts (catalog : List Request)
    (api : Request → Option Json) (ver ts : String) (req : Request)
    (hmem : req ∈ catalog) (hopt : req.optional = false)
    (herr : api req = none) :
    (runMain catalog api ver ts).2 = false ∧
    (runMain catalog api ver ts).1 "meta" = none ∧
    LogEvent.panicFetch req.className ∈ (fetch req (api req)).logs := by
  have habort := runFetches_false_of_required_error catalog api Store.empty req hmem hopt herr
  have hmeta : (runFetches catalog api Store.empty).1 "meta" = none := by
    rw [runFetches_fst_eq_of_no_colon]
    · rfl
    · decide
  refine ⟨by simp [runMain, habort], by simp [runMain, habort, hmeta], ?_⟩
  rw [herr]
  simp [fetch, hopt]

/-- Witness for C1 at the real catalog: with every request failing, the
first descriptor (`topSystem`, required) aborts the run and no metadata
is written. -/
theorem c1_witness :
    (runMain reqs (fun _ => none) "v" "t").2 = false ∧
    (runMain reqs (fun _ => none) "v" "t").1 "meta" = none ∧
    LogEvent.panicFetch "topSystem" ∈ (fetch { className := "topSystem" } none).logs :=
  c1_required_fetch_error_aborts reqs (fun _ => none) "v" "t"
    { className := "topSystem" } (List.Mem.head _) rfl rfl

/-- C8: the store's `set` is an upsert with last-write-wins semantics —
writing `v1` then `v2` under one key leaves the store in exactly the
state of writing only `v2`. -/
theorem c8_last_write_wins (s : Store) (k : String) (v1 v2 : Json) :
    (s.set k v1).set k v2 = s.set k v2 := by
  funext q
  by_cases hq : q = k <;> simp [Store.set, hq]

/-- C9: on the fatal-failure path the `part_003` variant removes both the
store file and the log file in its deferred cleanup (contradicting the
README, which promises the log is available after a failure), while the
`main.go` failure path removes neither. -/
theorem c9_fatal_failure_file_actions (output : String) :
    (FileAction.removeFile dbName ∈ mainFileActionsV3 true output ∧
     FileAction.removeFile logFile ∈ mainFileActionsV3 true output) ∧
    (FileAction.removeFile dbName ∉ mainFileActions true ∧
     FileAction.removeFile logFile ∉ mainFileActions true) := by
  refine ⟨⟨?_, ?_⟩, by simp [mainFileActions], by simp [mainFileActions]⟩ <;>
    simp [mainFileActionsV3]

theorem gjsonGetArray_null (path : String) : gjsonGetArray path Json.null = [] := by
  unfold gjsonGetArray
  split <;> simp [sharpExtract]

theorem runFetches_true_of_optional_errors (catalog : List Request)
    (api : Request → Option Json) (s : Store)
    (hall : ∀ r ∈ catalog, api r = none → r.optional = true) :
    (runFetches catalog api s).2 = true := by
  induction catalog generalizing s with
  | nil => rfl
  | cons r rest ih =>
    have hab : (fetch r (api r)).aborted = false := by
      cases hr : api r with
      | none => simp [fetch, hall r (List.mem_cons_self _ _) hr]
      | some res => simp [fetch]
    simp [runFetches, hab]
    exact ih _ (fun x hx => hall x (List.mem_cons_of_mem _ hx))

/-- C2 counterexample: the optional descriptor
`eqptcapacityL2RemoteUsage5min` of the catalog, on a failed request,
emits no log entry recording the failure — `fetch` only logs the debug
"requesting resource" entry, the failure branch (`out.Panic`) is guarded
by `!req.optional` and no other failure logging exists, refuting the
"a log entry recording the failure is emitted" part of the claim. -/
theorem c2_counterexample :
    (fetch { className := "eqptcapacityL2RemoteUsage5min", optional := true }
      none).logs.any LogEvent.isFailure = false ∧
    ({ className := "eqptcapacityL2RemoteUsage5min", optional := true } : Request) ∈ reqs :=
  ⟨rfl, by decide⟩

/-- C2 (amended): for every descriptor with `optional = true`, a fetch
error leaves the run completing (when no required descriptor also fails)
with zero keys written under that descriptor's prefix, and no log entry
recording the failure is emitted. -/
theorem c2_optional_fetch_error_tolerated (catalog : List Request)
    (api : Request → Option Json) (ver ts : String) (req : Request)
    (hopt : req.optional = true) (herr : api req = none)
    (hall : ∀ r ∈ catalog, api r = none → r.optional = true) :
    (runMain catalog api ver ts).2 = true ∧
    (fetch req (api req)).aborted = false ∧
    (fetch req (api req)).writes = [] ∧
    (fetch req (api req)).logs.any LogEvent.isFailure = false := by
  have hr := runFetches_true_of_optional_errors catalog api Store.empty hall
  refine ⟨by simp [runMain, hr], ?_, ?_, ?_⟩ <;> rw [herr] <;>
    simp [fetch, hopt, gjsonGetArray_null, LogEvent.isFailure]

/-- Witness for C2 (amended): the optional capacity descriptor with a
failed request, in a run where it is the only descriptor. -/
theorem c2_witness :
    (runMain [{ className := "eqptcapacityL2RemoteUsage5min", optional := true }]
      (fun _ => none) "v" "t").2 = true ∧
    (fetch { className := "eqptcapacityL2RemoteUsage5min", optional := true }
      none).aborted = false ∧
    (fetch { className := "eqptcapacityL2RemoteUsage5min", optional := true }
      none).writes = [] ∧
    (fetch { className := "eqptcapacityL2RemoteUsage5min", optional := true }
      none).logs.any LogEvent.isFailure = false :=
  c2_optional_fetch_error_tolerated _ (fun _ => none) "v" "t" _ rfl rfl
    (fun r hr _ => by have h := List.mem_singleton.mp hr; subst h; rfl)

/-- Response body of the C3 round-trip test fixture. -/
def c3Body : Json :=
  .obj [("imdata", .arr
    [.obj [("fvTenant", .obj [("attributes", .obj [("dn", .str "uni/tn-A")])])]])]

/-- Modelled from the spec: the internal `aci` client package is not under
`src/`; per the spec the responses have shape `{imdata: [...]}` and the
default rule `#.<class>.attributes` is evaluated over the element list,
so the client's `Get` is modelled as returning the `imdata` payload of
the decoded response body. -/
def clientPayload (body : Json) : Json :=
  match lookupField "imdata" body with
  | some payload => payload
  | none => Json.null

/-- C3: extracting the response
`{"imdata":[{"fvTenant":{"attributes":{"dn":"uni/tn-A"}}}]}` for class
`fvTenant` with no explicit rule yields exactly one record with
`dn = "uni/tn-A"`, persisted under exactly the key `fvTenant:uni/tn-A`. -/
theorem c3_roundtrip :
    (fetch { className := "fvTenant" } (some (clientPayload c3Body))).writes
      = [("fvTenant:uni/tn-A", Json.obj [("dn", Json.str "uni/tn-A")])] ∧
    Store.empty.applyWrites
      (fetch { className := "fvTenant" } (some (clientPayload c3Body))).writes
      "fvTenant:uni/tn-A" = some (Json.obj [("dn", Json.str "uni/tn-A")]) ∧
    (fetch { className := "fvTenant" } (some (clientPayload c3Body))).aborted = false :=
  ⟨rfl, rfl, rfl⟩

/-- C4: with the extraction rule unset the effective rule is the default
derived from the resource class; every persisted key is
`prefix ++ ":" ++ dn` with the class as prefix; and `newRequest` of
`requests.go` defaults the database prefix to the class. -/
theorem c4_default_rule_and_key_shape (req : Request) (h : req.filter = "")
    (resp : Option Json) :
    req.effFilter = "#." ++ req.className ++ ".attributes" ∧
    (∀ kv ∈ (fetch req resp).writes,
      kv.1 = req.className ++ ":" ++ kv.2.getStr "dn") ∧
    (∀ c, (newRequest c).pfx = c) := by
  refine ⟨?_, fetch_writes_key req resp, fun c => rfl⟩
  simp [Request.effFilter, h]

/-- Witness for C4 at the `fvTenant` descriptor and the C3 fixture. -/
theorem c4_witness :
    ({ className := "fvTenant" } : Request).effFilter = "#.fvTenant.attributes" ∧
    (∀ kv ∈ (fetch { className := "fvTenant" } (some (clientPayload c3Body))).writes,
      kv.1 = "fvTenant" ++ ":" ++ kv.2.getStr "dn") ∧
    (∀ c, (newRequest c).pfx = c) :=
  c4_default_rule_and_key_shape { className := "fvTenant" } rfl
    (some (clientPayload c3Body))

/-- An entry reporting the DN-empty data-integrity panic of `part_004`. -/
def LogEvent.isDnPanic : LogEvent → Bool
  | .panicDnEmpty _ => true
  | _ => false

theorem writeRecords4_snd_true (pfx : String) (rs : List Json)
    (h : ∃ r ∈ rs, r.getStr "dn" = "") : (writeRecords4 pfx rs).2 = true := by
  induction rs with
  | nil => simp at h
  | cons r rest ih =>
    by_cases hd : r.getStr "dn" = ""
    · simp [writeRecords4, hd]
    · simp [writeRecords4, hd]
      rcases h with ⟨x, hx, hdn⟩
      rcases List.mem_cons.mp hx with heq | hx'
      · exact absurd (heq ▸ hdn) hd
      · exact ih ⟨x, hx', hdn⟩

theorem writeRecords4_writes_dn (pfx : String) (rs : List Json) :
    ∀ kv ∈ (writeRecords4 pfx rs).1, kv.2.getStr "dn" ≠ "" := by
  induction rs with
  | nil => simp [writeRecords4]
  | cons r rest ih =>
    intro kv hkv
    by_cases hd : r.getStr "dn" = ""
    · simp [writeRecords4, hd] at hkv
    · simp only [writeRecords4, hd] at hkv
      rw [if_neg (by simpa using hd)] at hkv
      rcases List.mem_cons.mp hkv with heq | hkv'
      · rw [heq]
        exact hd
      · exact ih kv hkv'

/-- Response fixture whose single record carries no `dn` field. -/
def c5Resp : Json :=
  .arr [.obj [("topSystem", .obj [("attributes", .obj [("name", .str "leaf1")])])]]

/-- C5 counterexample: `main.go`'s `fetch` has no DN check — a record whose
attributes carry no `dn` (the shape every count-style descriptor returns)
is silently persisted under the bare key `topSystem:` with no panic and no
log entry, refuting the claim for this pipeline. -/
theorem c5_counterexample :
    (fetch { className := "topSystem" } (some c5Resp)).aborted = false ∧
    (fetch { className := "topSystem" } (some c5Resp)).writes
      = [("topSystem:", Json.obj [("name", Json.str "leaf1")])] ∧
    (fetch { className := "topSystem" } (some c5Resp)).logs.any
      LogEvent.isFailure = false ∧
    (fetch { className := "topSystem" } (some c5Resp)).logs.any
      LogEvent.isDnPanic = false :=
  ⟨rfl, rfl, rfl, rfl⟩

/-- C5 (amended): in the `part_004` variant — the one implementing the DN
check — a record with an empty or missing `dn` makes the run panic with
the `DN empty` data-integrity entry carrying the record, the offending
record is never written, and the failure is distinguishable from a fetch
error: a failed request there is logged as `errorFetch`, panics nothing
and never produces the DN-empty entry. -/
theorem c5_dn_check_variant (req : Request4) (resp : Json)
    (h : ∃ r ∈ gjsonGetArray "#.*.attributes" resp, r.getStr "dn" = "") :
    (fetch4 req (some resp)).dnPanicked = true ∧
    (∀ kv ∈ (fetch4 req (some resp)).writes, kv.2.getStr "dn" ≠ "") ∧
    (fetch4 req (some resp)).logs.any LogEvent.isDnPanic = true ∧
    (fetch4 req none).dnPanicked = false ∧
    (fetch4 req none).logs.any LogEvent.isDnPanic = false ∧
    (fetch4 req none).logs.any LogEvent.isFailure = true := by
  have hp := writeRecords4_snd_true req.effPfx _ h
  refine ⟨by simp [fetch4, hp], ?_, ?_, ?_, ?_, ?_⟩
  · intro kv hkv
    exact writeRecords4_writes_dn req.effPfx _ kv (by simpa [fetch4] using hkv)
  · simp [fetch4, hp, LogEvent.isDnPanic]
  · simp [fetch4, gjsonGetArray_null, writeRecords4]
  · simp [fetch4, gjsonGetArray_null, writeRecords4, LogEvent.isDnPanic]
  · simp [fetch4, gjsonGetArray_null, writeRecords4, LogEvent.isFailure]

/-- Witness for C5 (amended): a response whose single record has no `dn`,
fetched by the `part_004` variant for `topSystem`. -/
theorem c5_witness :
    (fetch4 { className := "topSystem" } (some c5Resp)).dnPanicked = true ∧
    (∀ kv ∈ (fetch4 { className := "topSystem" } (some c5Resp)).writes,
      kv.2.getStr "dn" ≠ "") ∧
    (fetch4 { className := "topSystem" } (some c5Resp)).logs.any
      LogEvent.isDnPanic = true ∧
    (fetch4 { className := "topSystem" } none).dnPanicked = false ∧
    (fetch4 { className := "topSystem" } none).logs.any
      LogEvent.isDnPanic = false ∧
    (fetch4 { className := "topSystem" } none).logs.any
      LogEvent.isFailure = true :=
  c5_dn_check_variant { className := "topSystem" } c5Resp
    ⟨Json.obj [("name", Json.str "leaf1")], List.Mem.head _, rfl⟩

/-- Removal of one field from a record, used to compare metadata records
modulo their timestamp. -/
def removeField (key : String) : Json → Json
  | .obj fields => .obj (fields.filter (fun f => f.1 != key))
  | j => j

theorem removeField_timestamp_metaValue (ver ts : String) :
    removeField "timestamp" (metaValue ver ts)
      = Json.obj [("collectorVersion", .str ver),
                  ("schemaVersion", .num schemaVersion)] := rfl

/-- C7: two runs of the pipeline over the same responses and fresh empty
stores agree on completion, on every key other than `meta`, and on the
`meta` record up to its timestamp field. -/
theorem c7_rerun_identical_modulo_timestamp (catalog : List Request)
    (api : Request → Option Json) (ver ts1 ts2 : String) :
    (runMain catalog api ver ts1).2 = (runMain catalog api ver ts2).2 ∧
    (∀ k, k ≠ "meta" →
      (runMain catalog api ver ts1).1 k = (runMain catalog api ver ts2).1 k) ∧
    Option.map (removeField "timestamp") ((runMain catalog api ver ts1).1 "meta")
      = Option.map (removeField "timestamp") ((runMain catalog api ver ts2).1 "meta") := by
  by_cases h : (runFetches catalog api Store.empty).2 = true
  · refine ⟨by simp [runMain, h], ?_, ?_⟩
    · intro k hk
      simp [runMain, h, Store.set, hk]
    · simp [runMain, h, Store.set, removeField_timestamp_metaValue]
  · exact ⟨by simp [runMain, h], fun k hk => by simp [runMain, h],
      by simp [runMain, h]⟩

/-- Witness for C7: both runs store the same value under a non-meta key. -/
theorem c7_witness :
    (runMain reqs (fun _ => some Json.null) "v" "t1").1 "fvTenant:uni/tn-A"
      = (runMain reqs (fun _ => some Json.null) "v" "t2").1 "fvTenant:uni/tn-A" :=
  (c7_rerun_identical_modulo_timestamp reqs (fun _ => some Json.null)
    "v" "t1" "t2").2.1 "fvTenant:uni/tn-A" (by decide)

theorem applyWrites_uniform_key (s : Store) (k : String)
    (ws : List (String × Json)) (h : ∀ kv ∈ ws, kv.1 = k) :
    s.applyWrites ws k = (match ws.getLast? with
      | some kv => some kv.2
      | none => s k) := by
  induction ws generalizing s with
  | nil => rfl
  | cons kv rest ih =>
    have hk : kv.1 = k := h kv (List.mem_cons_self _ _)
    show (s.set kv.1 kv.2).applyWrites rest k = _
    rw [hk, ih (s.set k kv.2) (fun x hx => h x (List.mem_cons_of_mem _ hx))]
    cases rest with
    | nil => simp [Store.set, List.getLast?]
    | cons r rest' =>
      simp only [List.getLast?_cons_cons]
      cases hgl : (r :: rest').getLast? with
      | none => exact absurd (List.getLast?_eq_none_iff.mp hgl) (by simp)
      | some kv2 => rfl

theorem fetch_writes_dn_key (req : Request) (resp : Json)
    (hdn : ∀ r ∈ gjsonGetArray req.effFilter resp, r.getStr "dn" = "") :
    ∀ kv ∈ (fetch req (some resp)).writes, kv.1 = req.className ++ ":" := by
  intro kv hkv
  obtain ⟨r, hr, heq⟩ := List.mem_map.mp (by simpa [fetch] using hkv)
  rw [← heq]
  show recordKey req.className r = req.className ++ ":"
  rw [recordKey, hdn r hr, String.append_empty]

/-- C10: for a count-style descriptor (literal rule `#.moCount.attributes`)
whose extracted records carry no `dn`, every write targets the single key
`class ++ ":"`, no other key is ever populated by it, and repeated records
collapse into that key with the last record's value (last write wins). -/
theorem c10_count_style_single_key (req : Request) (resp : Json)
    (hfil : req.filter = "#.moCount.attributes")
    (hdn : ∀ r ∈ gjsonGetArray req.effFilter resp, r.getStr "dn" = "") :
    req.effFilter = "#.moCount.attributes" ∧
    (∀ kv ∈ (fetch req (some resp)).writes, kv.1 = req.className ++ ":") ∧
    (∀ k, Store.empty.applyWrites (fetch req (some resp)).writes k ≠ none →
      k = req.className ++ ":") ∧
    Store.empty.applyWrites (fetch req (some resp)).writes (req.className ++ ":")
      = (match (fetch req (some resp)).writes.getLast? with
         | some kv => some kv.2
         | none => none) := by
  have hkeys := fetch_writes_dn_key req resp hdn
  refine ⟨by simp [Request.effFilter, hfil], hkeys, ?_, ?_⟩
  · intro k hne
    by_contra hk
    apply hne
    rw [applyWrites_eq_of_not_mem]
    · rfl
    · intro kv hkv hkk
      exact hk (hkk ▸ hkeys kv hkv)
  · rw [applyWrites_uniform_key Store.empty _ _ hkeys]
    cases (fetch req (some resp)).writes.getLast? <;> rfl

/-- Count-style response fixture, the `moCount` shape of the spec. -/
def countResp : Json :=
  .arr [.obj [("moCount", .obj [("attributes", .obj [("count", .str "5")])])]]

/-- Witness for C10 at the catalog's `fvCEp` endpoint-count descriptor and
the `moCount` fixture response. -/
theorem c10_witness :
    ({ className := "fvCEp", query := ["rsp-subtree-include=count"],
       filter := "#.moCount.attributes" } : Request) ∈ reqs ∧
    Store.empty.applyWrites
      (fetch { className := "fvCEp", query := ["rsp-subtree-include=count"],
               filter := "#.moCount.attributes" } (some countResp)).writes "fvCEp:"
      = some (Json.obj [("count", Json.str "5")]) :=
  ⟨by decide, by
    have h := (c10_count_style_single_key
      { className := "fvCEp", query := ["rsp-subtree-include=count"],
        filter := "#.moCount.attributes" } countResp rfl
      (fun r hr => by
        have hx := List.mem_singleton.mp hr
        subst hx
        rfl)).2.2.2
    exact h.trans rfl⟩

theorem orchTrace_perm {s s' : OrchState} {tr : List Event}
    (h : OrchTrace s tr s') : List.Perm (tasksDone tr ++ s'.pending) s.pending := by
  induction h with
  | nil => simp [tasksDone]
  | cons hstep htr ih =>
    cases hstep with
    | taskDone r hr =>
      simp only [tasksDone, List.cons_append]
      exact (ih.cons r).trans (List.perm_cons_erase hr).symm
    | metaWrite hp hm => simpa [tasksDone] using ih

theorem orchTrace_terminal {s s' : OrchState} {es : List Event}
    (h : OrchTrace s es s') (hp : s.pending = []) (hm : s.metaDone = true) :
    es = [] := by
  cases h with
  | nil => rfl
  | cons hstep htr =>
    cases hstep with
    | taskDone r hr =>
      rw [hp] at hr
      cases hr
    | metaWrite hp2 hm2 =>
      rw [hm] at hm2
      cases hm2

theorem orchTrace_metaDone_mono {s s' : OrchState} {tr : List Event}
    (h : OrchTrace s tr s') (hm : s.metaDone = true) : s'.metaDone = true := by
  induction h with
  | nil => exact hm
  | cons hstep htr ih =>
    cases hstep with
    | taskDone r hr => exact ih hm
    | metaWrite hp hm2 => exact ih rfl

theorem orchTrace_count_zero {s s' : OrchState} {tr : List Event}
    (h : OrchTrace s tr s') (hm : s.metaDone = true) :
    tr.count Event.metaWrite = 0 := by
  induction h with
  | nil => rfl
  | cons hstep htr ih =>
    cases hstep with
    | taskDone r hr =>
      rw [List.count_cons_of_ne (fun hc => Event.noConfusion hc)]
      exact ih hm
    | metaWrite hp hm2 =>
      rw [hm] at hm2
      cases hm2

theorem orchTrace_count {s s' : OrchState} {tr : List Event}
    (h : OrchTrace s tr s') (hm : s.metaDone = false) :
    tr.count Event.metaWrite = (if s'.metaDone then 1 else 0) := by
  induction h with
  | nil => simp [hm]
  | cons hstep htr ih =>
    cases hstep with
    | taskDone r hr =>
      rw [List.count_cons_of_ne (fun hc => Event.noConfusion hc)]
      exact ih hm
    | metaWrite hp hm2 =>
      rw [List.count_cons_self, orchTrace_count_zero htr rfl,
        orchTrace_metaDone_mono htr rfl]
      simp

theorem orchTrace_append {s s' : OrchState} (pre : List Event)
    {e : Event} {post : List Event} (h : OrchTrace s (pre ++ e :: post) s') :
    ∃ s1 s2, OrchTrace s pre s1 ∧ OrchStep s1 e s2 ∧ OrchTrace s2 post s' := by
  induction pre generalizing s with
  | nil =>
    cases h with
    | cons hstep htr => exact ⟨s, _, OrchTrace.nil s, hstep, htr⟩
  | cons e0 pre' ih =>
    cases h with
    | cons hstep htr =>
      obtain ⟨s1, s2, h1, h2, h3⟩ := ih htr
      exact ⟨s1, s2, OrchTrace.cons hstep h1, h2, h3⟩

/-- C6: in every execution of the orchestration the metadata write occurs
at most once, exactly once in a run that finishes it, and only at the very
end: whenever the trace contains the metadata event, nothing follows it
and the tasks completed before it are a permutation of the whole catalog
— the finalizer never runs with a fetch task still in flight. -/
theorem c6_meta_write_once_after_join (catalog : List Request)
    (tr : List Event) (s' : OrchState)
    (h : OrchTrace (OrchState.init catalog) tr s') :
    tr.count Event.metaWrite ≤ 1 ∧
    (s'.metaDone = true → tr.count Event.metaWrite = 1) ∧
    (∀ pre post, tr = pre ++ Event.metaWrite :: post →
      post = [] ∧ List.Perm (tasksDone pre) catalog) := by
  have hc := orchTrace_count h rfl
  refine ⟨?_, ?_, ?_⟩
  · rw [hc]
    split <;> omega
  · intro hm
    rw [hc, hm]
    rfl
  · intro pre post heq
    subst heq
    obtain ⟨s1, s2, h1, h2, h3⟩ := orchTrace_append pre h
    cases h2 with
    | metaWrite hp hm =>
      refine ⟨orchTrace_terminal h3 hp rfl, ?_⟩
      have hperm := orchTrace_perm h1
      rw [hp, List.append_nil] at hperm
      exact hperm

/-- Witness for C6: a one-descriptor catalog, the task completing and then
the metadata write — counted exactly once. -/
theorem c6_witness :
    ([Event.taskDone { className := "topSystem" }, Event.metaWrite].count
      Event.metaWrite ≤ 1) ∧
    ([Event.taskDone { className := "topSystem" }, Event.metaWrite].count
      Event.metaWrite = 1) := by
  have h := c6_meta_write_once_after_join [{ className := "topSystem" }] _ _
    (OrchTrace.cons
      (OrchStep.taskDone _ { className := "topSystem" } (List.Mem.head _))
      (OrchTrace.cons (OrchStep.metaWrite _ (by decide) rfl) (OrchTrace.nil _)))
  exact ⟨h.1, h.2.1 rfl⟩

end AciVetr
